import Mathlib

/-!
# Verification of the symsift core (src/symsift.py)

Shallow embedding of the cross-stream resolution and merge algorithm of
`symsift.py`:

* `generate_section2rva` — Section Address Resolver (char-level model of the
  `SECTION HEADER #(\d+).*?([A-Fa-f0-9]+) virtual address` scan with `re.S`,
  including Python `re.findall` leftmost, non-overlapping semantics);
* `get_types_with_vftable` — Vftable Symbol Extractor (line-level model; the
  uncaught `KeyError` on a missing section index is modelled by `Except`);
* `fill_types_info` / `process_current_type` / `process_class` — Type Record
  Stream Reader and Classifier & Merger (line-level model; Python exceptions
  - the failed `assert` and the `None.group` AttributeError - are modelled by
  `Except`, and the bare `except:` of the reader by resuming the loop while
  recording the caught error);
* the partition loop of `__main__` — Catalog Partitioner.

Modelling conventions:

* Python dicts become association lists with in-place update (`dinsert`),
  first-hit lookup (`dlookup`) and key removal (`ddelete`); Python arbitrary
  precision integers become `Nat` (or `Int` where a sentinel `-1` occurs).
* The line-oriented dumps for the globals and types files are modelled one
  line at a time.  Each Python regular expression that is only ever applied
  to a single line is abstracted into a per-line field carrying the captured
  payload (already numerically parsed where the source parses it with
  `int(..., base)`); the record-level searches of `process_class` are then
  ordered scans over the record's lines, mirroring `re.search` on the
  concatenated record text.
* The section-header dump is modelled at the character level because its
  regex is run with `re.S` over the whole file content, and its behaviour on
  block boundaries is exactly what is under scrutiny.
-/

namespace Symsift

/-- Decidable equality on `Except`, used to evaluate the model on concrete
inputs. -/
instance {ε α : Type} [DecidableEq ε] [DecidableEq α] : DecidableEq (Except ε α) :=
  fun a b =>
    match a, b with
    | .ok x, .ok y =>
      if h : x = y then .isTrue (by rw [h]) else .isFalse (by simp [h])
    | .error x, .error y =>
      if h : x = y then .isTrue (by rw [h]) else .isFalse (by simp [h])
    | .ok _, .error _ => .isFalse (by simp)
    | .error _, .ok _ => .isFalse (by simp)

/-! ## Python dict model -/

/-- Lookup in a Python dict modelled as an association list (first hit). -/
def dlookup {κ ν : Type} [DecidableEq κ] (k : κ) : List (κ × ν) → Option ν
  | [] => none
  | p :: ps => if p.1 = k then some p.2 else dlookup k ps

/-- Model of `d[k] = v` on a Python dict: update the existing binding in place, else
append a new binding at the end (Python dicts preserve insertion order). -/
def dinsert {κ ν : Type} [DecidableEq κ] (k : κ) (v : ν) : List (κ × ν) → List (κ × ν)
  | [] => [(k, v)]
  | p :: ps => if p.1 = k then (k, v) :: ps else p :: dinsert k v ps

/-- Model of `if k in d: del d[k]` on a Python dict.  On the (always unique-keyed)
dicts produced by the source this is exactly the removal of the binding. -/
def ddelete {κ ν : Type} [DecidableEq κ] (k : κ) (l : List (κ × ν)) : List (κ × ν) :=
  l.filter (fun p => decide (¬ p.1 = k))

/-! ## Section Address Resolver: `generate_section2rva`

The Python code runs
`re.compile(r'SECTION HEADER #(\d+).*?([A-Fa-f0-9]+) virtual address', re.S)`
with `findall` over the whole file content.  `findall` produces the leftmost
matches, scanning on from the end of each match.  Because of `re.S`, the lazy
`.*?` may well run across the next `SECTION HEADER #` line: the virtual
address captured for a section header is simply the first
`<hex-run> virtual address` occurrence anywhere after its digits. -/

/-- Hex digit per the regex character class `[A-Fa-f0-9]`. -/
def isHexDigitCh (c : Char) : Bool :=
  c.isDigit || ('a' ≤ c && c ≤ 'f') || ('A' ≤ c && c ≤ 'F')

/-- The literal `SECTION HEADER #` of the section regex. -/
def secHeaderLit : List Char :=
  ['S', 'E', 'C', 'T', 'I', 'O', 'N', ' ', 'H', 'E', 'A', 'D', 'E', 'R', ' ', '#']

/-- The literal ` virtual address` that must follow the captured hex run. -/
def vaLit : List Char :=
  [' ', 'v', 'i', 'r', 't', 'u', 'a', 'l', ' ', 'a', 'd', 'd', 'r', 'e', 's', 's']

/-- Match a literal at the head of the input, returning the rest. -/
def matchLit : List Char → List Char → Option (List Char)
  | [], s => some s
  | _ :: _, [] => none
  | c :: cs, d :: ds => if c = d then matchLit cs ds else none

/-- Maximal run of decimal digits at the head of the input (the greedy `\d+`
of the regex; it is never forced to backtrack because the rest of the pattern
starts with the lazy `.*?`). -/
def takeDigitRun : List Char → List Char × List Char
  | [] => ([], [])
  | c :: cs =>
    if c.isDigit then
      let p := takeDigitRun cs
      (c :: p.1, p.2)
    else ([], c :: cs)

/-- Maximal run of `[A-Fa-f0-9]` at the head of the input (the greedy hex
capture; it is never forced to backtrack because ` virtual address` starts
with a non-hex character). -/
def takeHexRun : List Char → List Char × List Char
  | [] => ([], [])
  | c :: cs =>
    if isHexDigitCh c then
      let p := takeHexRun cs
      (c :: p.1, p.2)
    else ([], c :: cs)

/-- Python `int(s)` on a string of decimal digits. -/
def decVal (ds : List Char) : Nat :=
  ds.foldl (fun a c => 10 * a + (c.toNat - 48)) 0

/-- Numeric value of one `[A-Fa-f0-9]` digit. -/
def hexDigitVal (c : Char) : Nat :=
  if c.isDigit then c.toNat - 48
  else if 'a' ≤ c && c ≤ 'f' then c.toNat - 87
  else c.toNat - 55

/-- Python `int(s, 16)` on a string of hex digits. -/
def hexVal (ds : List Char) : Nat :=
  ds.foldl (fun a c => 16 * a + hexDigitVal c) 0

/-- Leftmost occurrence of `SECTION HEADER #(\d+)`: the literal followed by at
least one digit.  Returns the (decimal) section number and the input right
after its digits.  When the literal does not match at the current position,
or matches but is not followed by a digit, the scan advances one character
(Python's regex engine retries the whole pattern from the next position). -/
def findHeader : List Char → Option (Nat × List Char)
  | [] => none
  | c :: cs =>
    let m := matchLit secHeaderLit (c :: cs)
    let p := takeDigitRun (m.getD [])
    if m.isSome ∧ p.1 ≠ [] then some (decVal p.1, p.2) else findHeader cs

/-- Leftmost occurrence of `([A-Fa-f0-9]+) virtual address` (the resolution of
the lazy `.*?` followed by the greedy hex capture).  Returns the hex value and
the input right after the literal.  The hex run never backtracks: the literal
starts with a space, which is not a hex digit, so the literal can only match
right at the end of the maximal run. -/
def findVA : List Char → Option (Nat × List Char)
  | [] => none
  | c :: cs =>
    let p := takeHexRun (c :: cs)
    let m := matchLit vaLit p.2
    if p.1 ≠ [] ∧ m.isSome then some (hexVal p.1, m.getD []) else findVA cs

/-- Model of `re.findall` of the section pattern: leftmost match, resume after the end
of each match.  The fuel `s.length` is always sufficient: every successful
iteration consumes at least the 16-character header literal. -/
def scanAux : Nat → List Char → List (Nat × Nat)
  | 0, _ => []
  | fuel + 1, s =>
    match findHeader s with
    | none => []
    | some (n, r1) =>
      match findVA r1 with
      | none => []
      | some (v, r2) => (n, v) :: scanAux fuel r2

/-- All `(section number, virtual address)` matches of the section pattern. -/
def scanSections (s : List Char) : List (Nat × Nat) :=
  scanAux s.length s

/-- Translation of `generate_section2rva` (symsift.py:90-108): build the
`section number -> virtual address` dict from the raw file content. -/
def generate_section2rva (s : List Char) : List (Nat × Nat) :=
  (scanSections s).foldl (fun d p => dinsert p.1 p.2 d) []

/-! ## The type catalog

The values of `types_with_vftable` are Python lists: `[rva]` right after the
vftable pass, `[rva, type_index, field_list_index, unique_name, sizeof]` once
a class/struct record has been merged in.  Only these two shapes ever occur,
so the catalog value is a two-case variant (cf. spec §9). -/

/-- One value of the `types_with_vftable` dict. -/
inductive CatEntry : Type
  /-- A 1-field entry `[rva]` (vftable symbol seen, no type record merged). -/
  | vft (rva : Nat)
  /-- A 5-field entry `[rva, type_index, field_list_index, unique_name, sizeof]`. -/
  | full (rva tIdx fIdx : Nat) (uniq : String) (sz : Nat)
  deriving DecidableEq

/-! ## Vftable Symbol Extractor: `get_types_with_vftable`

Line-level model of symsift.py:66-88.  Per line, the two regexes are
abstracted into payload fields:

* `gdata = some name` iff `g_GDATA32_regexp` matches the stripped line from
  its start, with `name` the second capture (the display name in front of the
  vftable suffix);
* `addr = some (section, offset)` iff `g_addr_regexp` finds
  `addr = <digits>:<digits>` in the stripped line, with both captures already
  passed through `int` (base 10) as the source does.

`_in_section2rva[section]` with a missing key raises `KeyError`; there is no
handler anywhere on this path, so the model returns `Except.error section`,
short-circuiting the whole pass. -/

/-- One line of the globals dump, reduced to its regex payloads. -/
structure GLine : Type where
  gdata : Option String
  addr : Option (Nat × Nat)
  deriving DecidableEq

/-- The initial value of `line1` in the loop is the empty string, which
matches neither regex. -/
def emptyGLine : GLine := { gdata := none, addr := none }

/-- Loop body of `get_types_with_vftable`: `line1` is the previous (stripped)
line, the accumulator is `(out_types, max_width)`. -/
def gtvAux (table : List (Nat × Nat)) :
    List GLine → GLine → List (String × CatEntry) × Int →
    Except Nat (List (String × CatEntry) × Int)
  | [], _, acc => .ok acc
  | line2 :: rest, line1, (types, maxw) =>
    match line1.gdata with
    | some typeName =>
      match line2.addr with
      | some (sec, offset) =>
        match dlookup sec table with
        | none => .error sec
        | some sectionRva =>
          gtvAux table rest line2
            (dinsert typeName (CatEntry.vft (sectionRva + offset)) types,
             if (typeName.length : Int) > maxw then (typeName.length : Int) else maxw)
      | none => gtvAux table rest line2 (types, maxw)
    | none => gtvAux table rest line2 (types, maxw)

/-- Translation of `get_types_with_vftable` (symsift.py:66-88). -/
def get_types_with_vftable (lines : List GLine) (table : List (Nat × Nat)) :
    Except Nat (List (String × CatEntry) × Int) :=
  gtvAux table lines emptyGLine ([], -1)

/-- The adjacent pairs the extractor acts on: previous line matching the
vftable symbol regex, current line carrying an address.  Yields
`(name, section, offset)` in stream order. -/
def mpAux : List GLine → GLine → List (String × Nat × Nat)
  | [], _ => []
  | line2 :: rest, line1 =>
    (match line1.gdata, line2.addr with
     | some n, some (s, o) => [(n, s, o)]
     | _, _ => []) ++ mpAux rest line2

/-- All matched vftable-symbol pairs of a globals stream. -/
def matchedPairs (lines : List GLine) : List (String × Nat × Nat) :=
  mpAux lines emptyGLine

/-- The rva the extractor computes for a matched pair:
`SectionTable[section] + offset` (the default 0 is only a total-function
artefact; it is never used under the no-missing-section hypothesis). -/
def pairRva (table : List (Nat × Nat)) (p : String × Nat × Nat) : Nat :=
  (dlookup p.2.1 table).getD 0 + p.2.2

/-- Insert the catalog entries of a list of matched pairs, in order. -/
def insertPairs (table : List (Nat × Nat)) (types : List (String × CatEntry))
    (ps : List (String × Nat × Nat)) : List (String × CatEntry) :=
  ps.foldl (fun acc p => dinsert p.1 (CatEntry.vft (pairRva table p)) acc) types

/-- Last matched pair carrying a given type name, if any. -/
def lastPair (n : String) : List (String × Nat × Nat) → Option (String × Nat × Nat)
  | [] => none
  | p :: ps =>
    match lastPair n ps with
    | some q => some q
    | none => if p.1 = n then some p else none

/-! ## Type Record Stream Reader and Classifier & Merger

Line-level model of symsift.py:110-229.  A line of the types dump is reduced
to the payloads of the regexes that can see it:

* `header = some (idx, kind)`: `g_type_header_regexp` matches the line — it
  begins with optional whitespace, then `0x<hex> | LF_<word>`; `idx` is the
  hex-parsed type index.  Because that regex is anchored with `^` and has no
  `re.MULTILINE`, its search over a whole record succeeds only if every line
  before the first header-shaped line is pure whitespace (the `\s*` after `^`
  absorbs blank lines); hence the extra `isBlank` field.
* `fwdRef = some t`: the line contains `forward ref (-> X)` with `t` the
  hex-parsed `X` (the source parses it with `int(x, 16)`).
* `hasOptionsTag` / `hasScopedTok` / `optionsScoped`: the line contains
  `options:`, contains a word `scoped`, or contains `options:` followed by
  `scoped` within the same line.  `g_scoped_regexp` is compiled with
  `re.DOTALL`, so over a whole record it matches iff some line has
  `optionsScoped`, or some line has `hasOptionsTag` and a *later* line has
  `hasScopedTok`.
* `className`, `uniqueName`: the backtick-quoted captures of
  `g_class_name_regexp` and `g_unique_name_regexp` when the pattern occurs in
  the line (for class/struct records both sit on a single line each).
* `fieldList`, `sizeofVal`: the numeric captures of `g_field_list_regexp`
  (hex-parsed) and `g_sizeof_regexp` (decimal-parsed). -/

/-- Leaf kind token of a type-record header.  Only the three wanted kinds are
distinguished; every other `LF_*` token is `lfOther`. -/
inductive LeafKind : Type
  | lfClass
  | lfStructure
  | lfFieldlist
  | lfOther
  deriving DecidableEq

/-- One line of the types dump, reduced to its regex payloads. -/
structure TLine : Type where
  header : Option (Nat × LeafKind)
  fwdRef : Option Nat
  hasOptionsTag : Bool
  hasScopedTok : Bool
  optionsScoped : Bool
  className : Option String
  uniqueName : Option String
  fieldList : Option Nat
  sizeofVal : Option Nat
  isBlank : Bool
  deriving DecidableEq

/-- A line with no payload at all (an uninteresting body line). -/
def plainTLine : TLine :=
  { header := none, fwdRef := none, hasOptionsTag := false, hasScopedTok := false,
    optionsScoped := false, className := none, uniqueName := none, fieldList := none,
    sizeofVal := none, isBlank := false }

/-- Translation of `g_wanted_types` (symsift.py:35-39). -/
def g_wanted_types : List LeafKind :=
  [LeafKind.lfClass, LeafKind.lfStructure, LeafKind.lfFieldlist]

/-- Model of `g_type_header_regexp.search` over a whole record: skip leading blank
lines (the `^\s*` may absorb them), succeed on a header-shaped line, fail on
any other non-blank line. -/
def searchHeader : List TLine → Option (Nat × LeafKind)
  | [] => none
  | l :: rest =>
    match l.header with
    | some h => some h
    | none => if l.isBlank then searchHeader rest else none

/-- Model of `g_fwd_ref_regexp.search` over a record: first line carrying the marker. -/
def searchFwd (c : List TLine) : Option Nat :=
  c.findSome? (fun l => l.fwdRef)

/-- Model of `g_class_name_regexp.search` over a record: the pattern starts with a
greedy `LF_.*` under `re.DOTALL`, so of the lines carrying the
`[size = N] <backtick-name>` pattern the *last* one wins (in an intact record
there is exactly one, on the header line). -/
def searchClassName (c : List TLine) : Option String :=
  (c.filterMap (fun l => l.className)).getLast?

/-- Model of `g_scoped_regexp.search` over a record (`options:` then `scoped`,
possibly across lines thanks to `re.DOTALL`). -/
def scopedMatch : List TLine → Bool
  | [] => false
  | l :: rest =>
    l.optionsScoped || (l.hasOptionsTag && rest.any (fun m => m.hasScopedTok))
      || scopedMatch rest

/-- Model of `g_unique_name_regexp.search` over a record: first line with the payload. -/
def searchUniqueName (c : List TLine) : Option String :=
  c.findSome? (fun l => l.uniqueName)

/-- Model of `g_field_list_regexp.search` over a record: first line with the payload. -/
def searchFieldList (c : List TLine) : Option Nat :=
  c.findSome? (fun l => l.fieldList)

/-- Model of `g_sizeof_regexp.search` over a record: first line with the payload. -/
def searchSizeof (c : List TLine) : Option Nat :=
  c.findSome? (fun l => l.sizeofVal)

/-- Helper for `"<unnamed-" in type_name`: list prefix test. -/
def startsWithCh : List Char → List Char → Bool
  | [], _ => true
  | _ :: _, [] => false
  | p :: ps, c :: cs => p = c && startsWithCh ps cs

/-- Python `in` on strings: substring containment. -/
def containsSub : List Char → List Char → Bool
  | pat, [] => startsWithCh pat []
  | pat, c :: cs => startsWithCh pat (c :: cs) || containsSub pat cs

/-- The anonymous-type marker check `"<unnamed-" in type_name`. -/
def hasUnnamedMarker (n : String) : Bool :=
  containsSub "<unnamed-".data n.data

/-- The Python exceptions that can escape `process_class`. -/
inductive PyErr : Type
  /-- The failed `assert (len(elem) == 1 or elem[-1] == sizeof)`. -/
  | assertionError
  /-- `m.group(1)` on `m = None` when `sizeof` is absent after a unique name
  and field list were found. -/
  | attributeError
  deriving DecidableEq

/-- The mutable state threaded through the classifier: the `fwrd` dict, the
`type_positions` dict (file offsets abstracted to line indices) and the
`_inout_types` catalog. -/
structure PState : Type where
  fwd : List (Nat × Nat)
  typePositions : List (Nat × Int)
  types : List (String × CatEntry)
  deriving DecidableEq

/-- Translation of `process_class` (symsift.py:110-164). -/
def process_class (content : List TLine) (typeIndex : Nat) (st : PState) :
    Except PyErr PState :=
  match searchFwd content with
  | some fwdType =>
    .ok { st with fwd := dinsert typeIndex fwdType st.fwd }
  | none =>
    match searchClassName content with
    | none => .ok st
    | some typeName =>
      if scopedMatch content then
        .ok { st with types := ddelete typeName st.types }
      else if hasUnnamedMarker typeName then .ok st
      else
        match searchUniqueName content with
        | none => .ok st
        | some uniqueTypeName =>
          match searchFieldList content with
          | none => .ok st
          | some fieldListIndex =>
            match searchSizeof content with
            | none => .error PyErr.attributeError
            | some sz =>
              match dlookup typeName st.types with
              | none =>
                .ok { st with
                  types := dinsert typeName
                    (CatEntry.full 0 typeIndex fieldListIndex uniqueTypeName sz) st.types }
              | some (CatEntry.vft r) =>
                .ok { st with
                  types := dinsert typeName
                    (CatEntry.full r typeIndex fieldListIndex uniqueTypeName sz) st.types }
              | some (CatEntry.full r _ _ _ s0) =>
                if s0 = sz then
                  .ok { st with
                    types := dinsert typeName
                      (CatEntry.full r typeIndex fieldListIndex uniqueTypeName sz) st.types }
                else .error PyErr.assertionError

/-- Translation of `process_fieldlist` (symsift.py:166-167): `pass`. -/
def process_fieldlist (_content : List TLine) (_typeIndex : Nat) (st : PState) :
    Except PyErr PState :=
  .ok st

/-- Translation of `process_current_type` (symsift.py:169-190). -/
def process_current_type (content : List TLine) (st : PState) (pos : Int) :
    Except PyErr PState :=
  match searchHeader content with
  | none => .ok st
  | some (typeIdx, leafTypeName) =>
    let st1 :=
      if g_wanted_types.contains leafTypeName then
        { st with typePositions := dinsert typeIdx pos st.typePositions }
      else st
    if leafTypeName = LeafKind.lfClass || leafTypeName = LeafKind.lfStructure then
      process_class content typeIdx st1
    else if leafTypeName = LeafKind.lfFieldlist then
      process_fieldlist content typeIdx st1
    else .ok st1

/-- The whole loop state of `fill_types_info`: classifier state, the list of
record contents handed to `process_current_type` (its call trace), the
Python exceptions caught and printed by the bare `except:`, the line buffer
`content` and its position `content_pos`. -/
structure FillSt : Type where
  fwd : List (Nat × Nat)
  typePositions : List (Nat × Int)
  types : List (String × CatEntry)
  trace : List (List TLine)
  errs : List PyErr
  content : List TLine
  contentPos : Int
  deriving DecidableEq

/-- One iteration of the `fill_types_info` read loop (symsift.py:210-229) on
the line at position `pos`.  On a header line with a nonempty buffer the
buffer is delivered; if the delivery raises, the `except:` branch catches it
(recording it, as `print_exc` reports it) and — crucially — the
`content = line` / `content_pos = pos` assignments are skipped, so the buffer
is left as it was and the new header line is lost.  On a header line with an
empty buffer nothing at all happens, so that header line is dropped. -/
def fillStep (s : FillSt) (line : TLine) (pos : Int) : FillSt :=
  match line.header with
  | some _ =>
    if s.content = [] then s
    else
      match process_current_type s.content ⟨s.fwd, s.typePositions, s.types⟩ s.contentPos with
      | .ok p =>
        { fwd := p.fwd, typePositions := p.typePositions, types := p.types,
          trace := s.trace ++ [s.content], errs := s.errs,
          content := [line], contentPos := pos }
      | .error e =>
        { s with trace := s.trace ++ [s.content], errs := s.errs ++ [e] }
  | none => { s with content := s.content ++ [line] }

/-- The read loop of `fill_types_info`, with `pos` the (abstracted) position
of the current line. -/
def fillAux : List TLine → Int → FillSt → FillSt
  | [], _, s => s
  | line :: rest, pos, s => fillAux rest (pos + 1) (fillStep s line pos)

/-- Translation of `fill_types_info` (symsift.py:192-229), seeded with the catalog built by
the vftable extractor.  Note that whatever is left in the buffer at
end of stream is never delivered. -/
def fill_types_info (lines : List TLine) (types0 : List (String × CatEntry)) : FillSt :=
  fillAux lines 0
    { fwd := [], typePositions := [], types := types0, trace := [], errs := [],
      content := [], contentPos := -1 }

/-! ## Catalog Partitioner (symsift.py:282-293) -/

/-- Test `len(details) > 1 and details[0] > 0`. -/
def isVirtualEntry (p : String × CatEntry) : Bool :=
  match p.2 with
  | CatEntry.full r _ _ _ _ => decide (r > 0)
  | CatEntry.vft _ => false

/-- Test `len(details) > 1 and not details[0] > 0`. -/
def isDetailedEntry (p : String × CatEntry) : Bool :=
  match p.2 with
  | CatEntry.full r _ _ _ _ => !decide (r > 0)
  | CatEntry.vft _ => false

/-- Test `len(details) == 1`. -/
def isUnexpandedEntry (p : String × CatEntry) : Bool :=
  match p.2 with
  | CatEntry.full _ _ _ _ _ => false
  | CatEntry.vft _ => true

/-- One iteration of the partition loop: place `p` in the virtual, detailed
or unexpanded accumulator according to its arity and rva. -/
def partitionStep
    (acc : List (String × CatEntry) × List (String × CatEntry) × List (String × CatEntry))
    (p : String × CatEntry) :
    List (String × CatEntry) × List (String × CatEntry) × List (String × CatEntry) :=
  match p.2 with
  | CatEntry.full r _ _ _ _ =>
    if r > 0 then (acc.1 ++ [p], acc.2.1, acc.2.2)
    else (acc.1, acc.2.1 ++ [p], acc.2.2)
  | CatEntry.vft _ => (acc.1, acc.2.1, acc.2.2 ++ [p])

/-- The partition loop of `__main__`: split the final catalog into
`virtual_detailed_types`, `detailed_types` and `unexpanded_types`. -/
def partitionCatalog (ts : List (String × CatEntry)) :
    List (String × CatEntry) × List (String × CatEntry) × List (String × CatEntry) :=
  ts.foldl partitionStep ([], [], [])

/-! ## Dict lemmas -/

theorem dlookup_dinsert_self {κ ν : Type} [DecidableEq κ] (k : κ) (v : ν)
    (l : List (κ × ν)) : dlookup k (dinsert k v l) = some v := by
  induction l with
  | nil => simp [dlookup, dinsert]
  | cons p ps ih =>
    by_cases h : p.1 = k <;> simp [dlookup, dinsert, h, ih]

theorem dlookup_dinsert_ne {κ ν : Type} [DecidableEq κ] {k k' : κ} (v : ν)
    (l : List (κ × ν)) (h : k' ≠ k) :
    dlookup k (dinsert k' v l) = dlookup k l := by
  induction l with
  | nil => simp [dlookup, dinsert, h]
  | cons p ps ih =>
    by_cases hp : p.1 = k'
    · simp [dlookup, dinsert, hp, h]
    · simp [dlookup, dinsert, hp, ih]

theorem dlookup_ddelete_self {κ ν : Type} [DecidableEq κ] (k : κ)
    (l : List (κ × ν)) : dlookup k (ddelete k l) = none := by
  induction l with
  | nil => simp [dlookup, ddelete]
  | cons p ps ih =>
    by_cases h : p.1 = k <;> simp [dlookup, ddelete, h] <;>
      simpa [ddelete] using ih

/-! ## Lemmas on the section scan -/

theorem matchLit_self_append (l s : List Char) : matchLit l (l ++ s) = some s := by
  induction l with
  | nil => rfl
  | cons c cs ih => simp [matchLit, ih]

theorem takeDigitRun_append (ds t : List Char)
    (h1 : ∀ c ∈ ds, c.isDigit = true)
    (h2 : ∀ c ts, t = c :: ts → c.isDigit = false) :
    takeDigitRun (ds ++ t) = (ds, t) := by
  induction ds with
  | nil =>
    cases t with
    | nil => rfl
    | cons c ts => simp [takeDigitRun, h2 c ts rfl]
  | cons d ds ih =>
    simp [takeDigitRun, List.append_eq, h1 d (by simp),
      ih (fun c hc => h1 c (by simp [hc]))]

theorem takeHexRun_append (ds t : List Char)
    (h1 : ∀ c ∈ ds, isHexDigitCh c = true)
    (h2 : ∀ c ts, t = c :: ts → isHexDigitCh c = false) :
    takeHexRun (ds ++ t) = (ds, t) := by
  induction ds with
  | nil =>
    cases t with
    | nil => rfl
    | cons c ts => simp [takeHexRun, h2 c ts rfl]
  | cons d ds ih =>
    simp [takeHexRun, List.append_eq, h1 d (by simp),
      ih (fun c hc => h1 c (by simp [hc]))]

theorem findHeader_match (s r : List Char)
    (hm : matchLit secHeaderLit s = some r) (hd : (takeDigitRun r).1 ≠ []) :
    findHeader s = some (decVal (takeDigitRun r).1, (takeDigitRun r).2) := by
  cases s with
  | nil => simp [secHeaderLit, matchLit] at hm
  | cons c cs => simp [findHeader, hm, hd]

theorem findHeader_append (ds rest : List Char) (h0 : ds ≠ [])
    (h1 : ∀ c ∈ ds, c.isDigit = true) :
    findHeader (secHeaderLit ++ (ds ++ ('\n' :: rest)))
      = some (decVal ds, '\n' :: rest) := by
  have ht : takeDigitRun (ds ++ ('\n' :: rest)) = (ds, '\n' :: rest) :=
    takeDigitRun_append ds ('\n' :: rest) h1
      (by intro c ts h; injection h with h1 h2; rw [← h1]; decide)
  have := findHeader_match (secHeaderLit ++ (ds ++ ('\n' :: rest)))
    (ds ++ ('\n' :: rest)) (matchLit_self_append _ _) (by rw [ht]; exact h0)
  simpa [ht] using this

theorem findVA_cons_nonhex (c : Char) (t : List Char) (h : isHexDigitCh c = false) :
    findVA (c :: t) = findVA t := by
  simp [findVA, takeHexRun, h]

theorem findVA_match (s r : List Char) (hr : (takeHexRun s).1 ≠ [])
    (hm : matchLit vaLit (takeHexRun s).2 = some r) :
    findVA s = some (hexVal (takeHexRun s).1, r) := by
  cases s with
  | nil => simp [takeHexRun] at hr
  | cons c cs => simp [findVA, hr, hm]

theorem findVA_append (hs rest : List Char) (h0 : hs ≠ [])
    (h1 : ∀ c ∈ hs, isHexDigitCh c = true) :
    findVA (hs ++ (vaLit ++ rest)) = some (hexVal hs, rest) := by
  have ht : takeHexRun (hs ++ (vaLit ++ rest)) = (hs, vaLit ++ rest) :=
    takeHexRun_append hs (vaLit ++ rest) h1
      (by
        intro d ts h
        rw [show vaLit ++ rest
            = ' ' :: (['v', 'i', 'r', 't', 'u', 'a', 'l', ' ',
                'a', 'd', 'd', 'r', 'e', 's', 's'] ++ rest) from rfl] at h
        injection h with h1 h2
        rw [← h1]; decide)
  have := findVA_match (hs ++ (vaLit ++ rest)) rest
    (by rw [ht]; exact h0) (by rw [ht]; exact matchLit_self_append _ _)
  simpa [ht] using this

/-! ## The C4 family of structured section inputs -/

/-- A well-formed section header block: `SECTION HEADER #<ds>` on one line,
`<hs> virtual address` on the next. -/
def mkBlockSection (b : List Char × List Char) : List Char :=
  secHeaderLit ++ b.1 ++ '\n' :: (b.2 ++ vaLit)

/-- A section-header dump consisting of the given blocks. -/
def mkSectionInput : List (List Char × List Char) → List Char
  | [] => []
  | b :: bs => mkBlockSection b ++ mkSectionInput bs

theorem scanAux_mkSectionInput (bs : List (List Char × List Char)) (fuel : Nat)
    (hfuel : (mkSectionInput bs).length ≤ fuel)
    (hbs : ∀ b ∈ bs, b.1 ≠ [] ∧ (∀ c ∈ b.1, c.isDigit = true) ∧
      b.2 ≠ [] ∧ (∀ c ∈ b.2, isHexDigitCh c = true)) :
    scanAux fuel (mkSectionInput bs) = bs.map (fun b => (decVal b.1, hexVal b.2)) := by
  induction bs generalizing fuel with
  | nil =>
    cases fuel with
    | zero => rfl
    | succ n => simp [mkSectionInput, scanAux, findHeader]
  | cons b bs ih =>
    obtain ⟨hd0, hd1, hh0, hh1⟩ := hbs b (by simp)
    have hshape : mkSectionInput (b :: bs)
        = secHeaderLit ++ (b.1 ++ ('\n' :: (b.2 ++ (vaLit ++ mkSectionInput bs)))) := by
      simp [mkSectionInput, mkBlockSection, List.append_assoc]
    have h16 : secHeaderLit.length = 16 := rfl
    have h16b : vaLit.length = 16 := rfl
    have hlen : 1 ≤ (mkSectionInput (b :: bs)).length := by
      rw [hshape, List.length_append]; omega
    cases fuel with
    | zero => omega
    | succ fuel =>
      have hfind := findHeader_append b.1 (b.2 ++ (vaLit ++ mkSectionInput bs)) hd0 hd1
      have hva : findVA ('\n' :: (b.2 ++ (vaLit ++ mkSectionInput bs)))
          = some (hexVal b.2, mkSectionInput bs) := by
        rw [findVA_cons_nonhex _ _ (by decide)]
        exact findVA_append b.2 (mkSectionInput bs) hh0 hh1
      have hfuel' : (mkSectionInput bs).length ≤ fuel := by
        have hl := hfuel
        rw [hshape] at hl
        simp only [List.length_append, List.length_cons, h16, h16b] at hl
        omega
      rw [hshape]
      simp [scanAux, hfind, hva, ih fuel hfuel' (fun x hx => hbs x (by simp [hx]))]

/-- A section-header dump in which block #1 has no virtual-address field and
block #2 has one (`AB`, i.e. 171). -/
def cexSections : List Char :=
  ("SECTION HEADER #1\nfoo\nSECTION HEADER #2\nAB virtual address").data

/-! ## Lemmas on the vftable extractor -/

theorem gtvAux_ok (table : List (Nat × Nat)) (ls : List GLine) :
    ∀ (prev : GLine) (types : List (String × CatEntry)) (maxw : Int),
    (∀ p ∈ mpAux ls prev, (dlookup p.2.1 table).isSome = true) →
    ∃ mw, gtvAux table ls prev (types, maxw)
      = .ok (insertPairs table types (mpAux ls prev), mw) := by
  induction ls with
  | nil => intro prev types maxw _; exact ⟨maxw, by simp [gtvAux, mpAux, insertPairs]⟩
  | cons l2 rest ih =>
    intro prev types maxw hp
    cases hg : prev.gdata with
    | none =>
      have := ih l2 types maxw (by
        intro p hp2
        exact hp p (by simp [mpAux, hg, hp2]))
      simpa [gtvAux, mpAux, hg, insertPairs] using this
    | some n =>
      cases ha : l2.addr with
      | none =>
        have := ih l2 types maxw (by
          intro p hp2
          exact hp p (by simp [mpAux, hg, ha, hp2]))
        simpa [gtvAux, mpAux, hg, ha, insertPairs] using this
      | some so =>
        obtain ⟨s, o⟩ := so
        have hsome : (dlookup s table).isSome = true :=
          hp (n, s, o) (by simp [mpAux, hg, ha])
        obtain ⟨base, hb⟩ : ∃ b, dlookup s table = some b :=
          Option.isSome_iff_exists.mp hsome
        have hrva : pairRva table (n, s, o) = base + o := by
          simp [pairRva, hb]
        have := ih l2 (dinsert n (CatEntry.vft (base + o)) types)
          (if (n.length : Int) > maxw then (n.length : Int) else maxw)
          (by
            intro p hp2
            exact hp p (by simp [mpAux, hg, ha, hp2]))
        obtain ⟨mw, hmw⟩ := this
        refine ⟨mw, ?_⟩
        simp only [gtvAux, mpAux, hg, ha, hb, insertPairs, List.singleton_append,
          List.foldl_cons, hrva] at hmw ⊢
        exact hmw

theorem gtvAux_err (table : List (Nat × Nat)) (ls : List GLine) :
    ∀ (prev : GLine) (types : List (String × CatEntry)) (maxw : Int),
    (∃ p ∈ mpAux ls prev, dlookup p.2.1 table = none) →
    ∃ s, gtvAux table ls prev (types, maxw) = .error s ∧ dlookup s table = none := by
  induction ls with
  | nil => intro prev types maxw h; simp [mpAux] at h
  | cons l2 rest ih =>
    intro prev types maxw hp
    cases hg : prev.gdata with
    | none =>
      obtain ⟨p, hmem, hnone⟩ := hp
      have hmem' : p ∈ mpAux rest l2 := by simpa [mpAux, hg] using hmem
      have := ih l2 types maxw ⟨p, hmem', hnone⟩
      simpa [gtvAux, hg] using this
    | some n =>
      cases ha : l2.addr with
      | none =>
        obtain ⟨p, hmem, hnone⟩ := hp
        have hmem' : p ∈ mpAux rest l2 := by simpa [mpAux, hg, ha] using hmem
        have := ih l2 types maxw ⟨p, hmem', hnone⟩
        simpa [gtvAux, hg, ha] using this
      | some so =>
        obtain ⟨s, o⟩ := so
        cases hb : dlookup s table with
        | none => exact ⟨s, by simp [gtvAux, hg, ha, hb], hb⟩
        | some base =>
          obtain ⟨p, hmem, hnone⟩ := hp
          have hmem' : p ∈ mpAux rest l2 := by
            rcases (by simpa [mpAux, hg, ha] using hmem) with h | h
            · exfalso; rw [h] at hnone; simp [hnone] at hb
            · exact h
          have := ih l2 (dinsert n (CatEntry.vft (base + o)) types)
            (if (n.length : Int) > maxw then (n.length : Int) else maxw)
            ⟨p, hmem', hnone⟩
          simpa [gtvAux, hg, ha, hb] using this

theorem dlookup_insertPairs (table : List (Nat × Nat)) (n : String)
    (ps : List (String × Nat × Nat)) :
    ∀ acc, dlookup n (insertPairs table acc ps)
      = match lastPair n ps with
        | some q => some (CatEntry.vft (pairRva table q))
        | none => dlookup n acc := by
  induction ps with
  | nil => intro acc; simp [insertPairs, lastPair]
  | cons p ps ih =>
    intro acc
    have hstep : insertPairs table acc (p :: ps)
        = insertPairs table (dinsert p.1 (CatEntry.vft (pairRva table p)) acc) ps := rfl
    rw [hstep, ih]
    cases hlast : lastPair n ps with
    | some q => simp [lastPair, hlast]
    | none =>
      by_cases hn : p.1 = n
      · subst hn
        simp [lastPair, hlast, dlookup_dinsert_self]
      · simp [lastPair, hlast, hn, dlookup_dinsert_ne _ _ hn]

/-! ## Claim C4 -/

/-- C4, counterexample.  On a dump whose block #1 has no virtual-address
field while block #2 has one (value `0xAB` = 171), the claim requires block
#2 to contribute `2 ↦ 171` and block #1 to contribute nothing.  The code
does the opposite: the lazy `.*?` of the pattern runs across the block
boundary, so block #1 is mapped to 171 and block #2 contributes nothing. -/
theorem c4_block_steals_next_va :
    dlookup 2 (generate_section2rva cexSections) = none ∧
    dlookup 1 (generate_section2rva cexSections) = some 171 := by
  exact ⟨rfl, rfl⟩

/-- C4, amended: when every section header block carries its own
virtual-address field (here: blocks of the shape
`SECTION HEADER #<digits>⏎<hex digits> virtual address`), each block
contributes exactly one mapping entry, from its decimal-parsed index to its
hex-parsed address.  (Without that restriction the claim fails: a block
lacking the field is assigned the first virtual-address field found later in
the file, even one belonging to a subsequent block, whose own header is then
swallowed — see the counterexample.) -/
theorem c4_sections_each_block_va (bs : List (List Char × List Char))
    (hbs : ∀ b ∈ bs, b.1 ≠ [] ∧ (∀ c ∈ b.1, c.isDigit = true) ∧
      b.2 ≠ [] ∧ (∀ c ∈ b.2, isHexDigitCh c = true)) :
    generate_section2rva (mkSectionInput bs)
      = bs.foldl (fun d b => dinsert (decVal b.1) (hexVal b.2) d) [] := by
  unfold generate_section2rva scanSections
  rw [scanAux_mkSectionInput bs _ le_rfl hbs, List.foldl_map]

/-- C4, witness: two well-formed blocks `#1 ↦ 0xA` and `#2 ↦ 0xB0`. -/
theorem c4_sections_each_block_va_witness :
    generate_section2rva (mkSectionInput [(['1'], ['A']), (['2'], ['B', '0'])])
      = [(1, 10), (2, 176)] := by
  rw [c4_sections_each_block_va [(['1'], ['A']), (['2'], ['B', '0'])] (by decide)]
  rfl

/-! ## Claim C5 -/

/-- C5: provided every matched vftable-symbol pair names a section present in
the section table (otherwise the pass aborts, see C10), the extractor
succeeds and its catalog is exactly the in-order insertion of
`name ↦ [SectionTable[section] + offset]` for each matched pair of adjacent
lines; consequently a repeated name ends up with the rva of its *last*
matched pair (last-write-wins, no conflict check).  Arithmetic is on `Nat`,
matching Python's exact arbitrary-precision integers. -/
theorem c5_vftable_rva_last_write (gl : List GLine) (table : List (Nat × Nat))
    (hs : ∀ p ∈ matchedPairs gl, (dlookup p.2.1 table).isSome = true) :
    ∃ mw, get_types_with_vftable gl table
        = .ok (insertPairs table [] (matchedPairs gl), mw) ∧
      ∀ n, dlookup n (insertPairs table [] (matchedPairs gl))
        = (lastPair n (matchedPairs gl)).map
            (fun q => CatEntry.vft (pairRva table q)) := by
  obtain ⟨mw, hmw⟩ := gtvAux_ok table gl emptyGLine [] (-1) hs
  refine ⟨mw, hmw, ?_⟩
  intro n
  rw [dlookup_insertPairs table n (matchedPairs gl) []]
  cases lastPair n (matchedPairs gl) <;> simp [dlookup]

/-- C5, witness: the name `A` appears in two matched pairs, with offsets 5
and 9 against section 1 at base 100; the final catalog holds the rva of the
later pair, 109. -/
theorem c5_vftable_rva_last_write_witness :
    ∃ mw, get_types_with_vftable
        [{ gdata := some "A", addr := none }, { gdata := none, addr := some (1, 5) },
         { gdata := some "A", addr := none }, { gdata := none, addr := some (1, 9) }]
        [(1, 100)]
      = .ok (insertPairs [(1, 100)] []
          (matchedPairs
            [{ gdata := some "A", addr := none }, { gdata := none, addr := some (1, 5) },
             { gdata := some "A", addr := none }, { gdata := none, addr := some (1, 9) }]), mw) ∧
    dlookup "A" (insertPairs [(1, 100)] []
        (matchedPairs
          [{ gdata := some "A", addr := none }, { gdata := none, addr := some (1, 5) },
           { gdata := some "A", addr := none }, { gdata := none, addr := some (1, 9) }]))
      = some (CatEntry.vft 109) := by
  obtain ⟨mw, hok, hlook⟩ := c5_vftable_rva_last_write
    [{ gdata := some "A", addr := none }, { gdata := none, addr := some (1, 5) },
     { gdata := some "A", addr := none }, { gdata := none, addr := some (1, 9) }]
    [(1, 100)] (by decide)
  refine ⟨mw, hok, ?_⟩
  rw [hlook "A"]
  rfl

/-! ## Claim C10 -/

/-- C10: whenever some matched vftable-symbol pair names a section index that
is absent from the section table, `get_types_with_vftable` does not skip that
pair: the `KeyError` of `_in_section2rva[section]` is uncaught, so the whole
extraction pass aborts with it (the result is an error naming a missing
section, not a catalog). -/
theorem c10_missing_section_aborts (gl : List GLine) (table : List (Nat × Nat))
    (h : ∃ p ∈ matchedPairs gl, dlookup p.2.1 table = none) :
    ∃ s, get_types_with_vftable gl table = .error s ∧ dlookup s table = none :=
  gtvAux_err table gl emptyGLine [] (-1) h

/-- C10, witness: one matched pair naming section 2, table containing only
section 1. -/
theorem c10_missing_section_aborts_witness :
    ∃ s, get_types_with_vftable
        [{ gdata := some "A", addr := none }, { gdata := none, addr := some (2, 5) }]
        [(1, 4096)]
      = .error s ∧ dlookup s [(1, 4096)] = none :=
  c10_missing_section_aborts
    [{ gdata := some "A", addr := none }, { gdata := none, addr := some (2, 5) }]
    [(1, 4096)] (by decide)

/-! ## Lemmas on the classifier and partitioner -/

theorem foldl_partitionStep (ts : List (String × CatEntry)) :
    ∀ acc, ts.foldl partitionStep acc
      = (acc.1 ++ ts.filter isVirtualEntry, acc.2.1 ++ ts.filter isDetailedEntry,
         acc.2.2 ++ ts.filter isUnexpandedEntry) := by
  induction ts with
  | nil => intro acc; simp
  | cons p ts ih =>
    intro acc
    rw [List.foldl_cons, ih]
    rcases p with ⟨nm, e⟩
    cases e with
    | vft r =>
      simp [partitionStep, isVirtualEntry, isDetailedEntry, isUnexpandedEntry,
        List.filter_cons]
    | full r a b c d =>
      by_cases hr : r > 0 <;>
        simp [partitionStep, isVirtualEntry, isDetailedEntry, isUnexpandedEntry,
          List.filter_cons, hr]

/-! ## Concrete lines used by the end-to-end statements -/

/-- A class-record header line for `Foo` with type index 0x1000. -/
def hdrClassFoo : TLine :=
  { plainTLine with header := some (4096, LeafKind.lfClass), className := some "Foo" }

/-- The `unique name` line of the `Foo` record. -/
def uniqLineFoo : TLine :=
  { plainTLine with uniqueName := some ".?AUFoo@@" }

/-- The `field list` / `options` / `sizeof` line of the `Foo` record
(field list 0x5, sizeof 16, no `scoped` token). -/
def bodyLineFoo : TLine :=
  { plainTLine with fieldList := some 5, sizeofVal := some 16, hasOptionsTag := true }

/-- A header line of some other (unwanted) leaf kind, type index 0x1002. -/
def trailHdr : TLine :=
  { plainTLine with header := some (4098, LeafKind.lfOther) }

/-- A second class-record header line for `Foo`, type index 0x1001. -/
def hdrClassFoo2 : TLine :=
  { plainTLine with header := some (4097, LeafKind.lfClass), className := some "Foo" }

/-- A body line for the second `Foo` record: unique name `U2`, field list
0x6, sizeof 32. -/
def bodyLineFoo2 : TLine :=
  { plainTLine with uniqueName := some "U2", fieldList := some 6, sizeofVal := some 32 }

/-- A body line for the first `Foo` record of the C1 run: unique name `U1`,
field list 0x5, sizeof 16. -/
def bodyLineFoo1 : TLine :=
  { plainTLine with uniqueName := some "U1", fieldList := some 5, sizeofVal := some 16 }

/-- A body line carrying both a forward-reference marker (to 0x1101) and a
`scoped` options text. -/
def bodyLineScopedFwd : TLine :=
  { plainTLine with
    fwdRef := some 4353, hasOptionsTag := true, hasScopedTok := true,
    optionsScoped := true }

/-! ## Claim C7 -/

/-- C7: a class/struct record containing a forward-reference marker records
`ForwardRefMap[this_index] = referenced_index` and leaves the type catalog
(and the positions dict) completely unchanged — the forward check is the
first thing `process_class` does. -/
theorem c7_forward_ref_no_catalog_mutation (content : List TLine) (idx t : Nat)
    (st : PState) (h : searchFwd content = some t) :
    process_class content idx st = .ok { st with fwd := dinsert idx t st.fwd } := by
  simp [process_class, h]

/-- C7, witness: a `Foo` class record whose body is a forward reference to
0x1101; the catalog entry for `Foo` is untouched. -/
theorem c7_forward_ref_no_catalog_mutation_witness :
    process_class [hdrClassFoo, bodyLineScopedFwd] 4096
        ⟨[], [], [("Foo", CatEntry.vft 100)]⟩
      = .ok ⟨dinsert 4096 4353 [], [], [("Foo", CatEntry.vft 100)]⟩ :=
  c7_forward_ref_no_catalog_mutation [hdrClassFoo, bodyLineScopedFwd] 4096 4353
    ⟨[], [], [("Foo", CatEntry.vft 100)]⟩ (by decide)

/-! ## Claim C6 -/

/-- C6, counterexample.  A class record whose options text marks it `scoped`
but which also carries a forward-reference marker is consumed by the
forward-declaration check (which runs first), so the pre-existing
vftable-only entry for its name is *not* removed: `Foo` is still in the
catalog afterwards, contradicting the claimed post-condition. -/
theorem c6_scoped_forward_ref_kept :
    scopedMatch [hdrClassFoo, bodyLineScopedFwd] = true ∧
    process_class [hdrClassFoo, bodyLineScopedFwd] 4096
        ⟨[], [], [("Foo", CatEntry.vft 100)]⟩
      = .ok ⟨[(4096, 4353)], [], [("Foo", CatEntry.vft 100)]⟩ ∧
    dlookup "Foo"
        (PState.types ⟨[(4096, 4353)], [], [("Foo", CatEntry.vft 100)]⟩)
      = some (CatEntry.vft 100) := by
  exact ⟨by decide, by decide, by decide⟩

/-- C6, amended: a classified class/struct record whose options text marks
it scoped *and which contains no forward-reference marker* (and whose display
name extraction succeeded) removes any existing catalog entry for that name
and adds nothing; afterwards the name is absent from the catalog.  (If the
record also carries a forward-reference marker, the forward check fires
first and the catalog is left unchanged — see the counterexample.) -/
theorem c6_scoped_removal (content : List TLine) (idx : Nat) (st : PState)
    (n : String)
    (hf : searchFwd content = none)
    (hn : searchClassName content = some n)
    (hsc : scopedMatch content = true) :
    process_class content idx st = .ok { st with types := ddelete n st.types } ∧
    dlookup n (ddelete n st.types) = none := by
  exact ⟨by simp [process_class, hf, hn, hsc], dlookup_ddelete_self n st.types⟩

/-- C6, witness: a scoped `Foo` record (no forward marker) against a catalog
holding a vftable-only entry for `Foo`. -/
theorem c6_scoped_removal_witness :
    process_class
        [hdrClassFoo,
         { plainTLine with hasOptionsTag := true, hasScopedTok := true, optionsScoped := true }]
        4096 ⟨[], [], [("Foo", CatEntry.vft 100)]⟩
      = .ok { PState.mk [] [] [("Foo", CatEntry.vft 100)] with
          types := ddelete "Foo" [("Foo", CatEntry.vft 100)] } ∧
    dlookup "Foo" (ddelete "Foo" [("Foo", CatEntry.vft 100)]) = none :=
  c6_scoped_removal
    [hdrClassFoo,
     { plainTLine with hasOptionsTag := true, hasScopedTok := true, optionsScoped := true }]
    4096 ⟨[], [], [("Foo", CatEntry.vft 100)]⟩ "Foo" (by decide) (by decide) (by decide)

/-! ## Claim C8 -/

/-- C8: merging a fully-parsed class/struct record whose display name is
already in the catalog — as a vftable-only entry, or as a 5-field entry with
the same sizeof — keeps the existing entry's rva and refreshes type index,
field-list index, unique name and sizeof to the newly parsed values. -/
theorem c8_merge_preserves_rva (content : List TLine) (idx : Nat) (st : PState)
    (n u : String) (fi sz r : Nat)
    (hf : searchFwd content = none)
    (hn : searchClassName content = some n)
    (hsc : scopedMatch content = false)
    (hu : hasUnnamedMarker n = false)
    (hq : searchUniqueName content = some u)
    (hfl : searchFieldList content = some fi)
    (hsz : searchSizeof content = some sz)
    (hl : dlookup n st.types = some (CatEntry.vft r) ∨
      ∃ ti0 fi0 u0, dlookup n st.types = some (CatEntry.full r ti0 fi0 u0 sz)) :
    process_class content idx st
      = .ok { st with types := dinsert n (CatEntry.full r idx fi u sz) st.types } := by
  rcases hl with hl | ⟨ti0, fi0, u0, hl⟩ <;>
    simp [process_class, hf, hn, hsc, hu, hq, hfl, hsz, hl]

/-- C8, witness: the `Foo` record (field list 0x5, unique name `.?AUFoo@@`,
sizeof 16) merged over a vftable-only entry with rva 4128. -/
theorem c8_merge_preserves_rva_witness :
    process_class [hdrClassFoo, uniqLineFoo, bodyLineFoo] 4096
        ⟨[], [], [("Foo", CatEntry.vft 4128)]⟩
      = .ok { PState.mk [] [] [("Foo", CatEntry.vft 4128)] with
          types := dinsert "Foo" (CatEntry.full 4128 4096 5 ".?AUFoo@@" 16)
            [("Foo", CatEntry.vft 4128)] } :=
  c8_merge_preserves_rva [hdrClassFoo, uniqLineFoo, bodyLineFoo] 4096
    ⟨[], [], [("Foo", CatEntry.vft 4128)]⟩ "Foo" ".?AUFoo@@" 5 16 4128
    (by decide) (by decide) (by decide) (by decide) (by decide) (by decide) (by decide)
    (Or.inl (by decide))

/-! ## Claim C1 -/

/-- C1: when a class/struct record's display name maps to a 5-field entry
whose stored sizeof differs from the newly parsed one, the merge raises the
`AssertionError` of `assert (len(elem) == 1 or elem[-1] == sizeof)`, leaving
the state unchanged (the error return carries no new state). -/
theorem c1_consistency_violation_raises (content : List TLine) (idx : Nat)
    (st : PState) (n u u0 : String) (fi sz r ti0 fi0 s0 : Nat)
    (hf : searchFwd content = none)
    (hn : searchClassName content = some n)
    (hsc : scopedMatch content = false)
    (hu : hasUnnamedMarker n = false)
    (hq : searchUniqueName content = some u)
    (hfl : searchFieldList content = some fi)
    (hsz : searchSizeof content = some sz)
    (hl : dlookup n st.types = some (CatEntry.full r ti0 fi0 u0 s0))
    (hne : ¬ s0 = sz) :
    process_class content idx st = .error PyErr.assertionError := by
  simp [process_class, hf, hn, hsc, hu, hq, hfl, hsz, hl, hne]

/-- C1, witness: a second `Foo` record with sizeof 32 against a stored
5-field `Foo` entry with sizeof 16. -/
theorem c1_consistency_violation_raises_witness :
    process_class [hdrClassFoo2, bodyLineFoo2] 4097
        ⟨[], [], [("Foo", CatEntry.full 0 4096 5 "U1" 16)]⟩
      = .error PyErr.assertionError :=
  c1_consistency_violation_raises [hdrClassFoo2, bodyLineFoo2] 4097
    ⟨[], [], [("Foo", CatEntry.full 0 4096 5 "U1" 16)]⟩ "Foo" "U2" "U1" 6 32 0 4096 5 16
    (by decide) (by decide) (by decide) (by decide) (by decide) (by decide) (by decide)
    (by decide) (by decide)

/-- C1, counterexample to "the consistency violation fails the run, and is
the only error in the core that aborts the entire run".  Running the whole
type pass on a stream holding two `Foo` records with sizeofs 16 and 32: the
`AssertionError` is caught by the reader's bare `except:` (it is recorded —
`print_exc` reports it — in `errs`), the pass runs to completion and the
catalog still holds the earlier entry, so the violation does *not* abort the
run; while the extractor, by contrast, *is* aborted by the missing-section
`KeyError` (final conjunct), an error that is not a consistency violation. -/
theorem c1_violation_does_not_abort :
    (fill_types_info [plainTLine, hdrClassFoo, bodyLineFoo1, hdrClassFoo2, bodyLineFoo2, trailHdr]
        []).errs = [PyErr.assertionError] ∧
    (fill_types_info [plainTLine, hdrClassFoo, bodyLineFoo1, hdrClassFoo2, bodyLineFoo2, trailHdr]
        []).types = [("Foo", CatEntry.full 0 4096 5 "U1" 16)] ∧
    get_types_with_vftable
        [{ gdata := some "A", addr := none }, { gdata := none, addr := some (2, 5) }]
        [(1, 4096)]
      = .error 2 := by
  exact ⟨by decide, by decide, by decide⟩

/-! ## Claim C3 -/

/-- C3: end-to-end.  With section table `{1: 0x1000}`, a globals dump whose
vftable symbol for `Foo` is followed by the address line `1:0x20` (section 1,
offset 32 — the dump's `addr` field is decimal), and a types dump containing
the `Foo` class record (not scoped, not anonymous, unique name `.?AUFoo@@`,
field list 0x5, sizeof 16): the extractor yields `Foo ↦ [0x1020]`, the merge
yields the 5-field record `[0x1020, 0x1000, 0x5, ".?AUFoo@@", 16]`, and the
partitioner places `Foo` in the virtual-types group (rva > 0).  (The types
dump here carries a preamble line and a trailing record, as real dumps do:
the reader only flushes a record when the next header line arrives, cf. C2.) -/
theorem c3_end_to_end_foo :
    get_types_with_vftable
        [{ gdata := some "Foo", addr := none }, { gdata := none, addr := some (1, 32) }]
        [(1, 4096)]
      = .ok ([("Foo", CatEntry.vft 4128)], 3) ∧
    (fill_types_info [plainTLine, hdrClassFoo, uniqLineFoo, bodyLineFoo, trailHdr]
        [("Foo", CatEntry.vft 4128)]).types
      = [("Foo", CatEntry.full 4128 4096 5 ".?AUFoo@@" 16)] ∧
    partitionCatalog [("Foo", CatEntry.full 4128 4096 5 ".?AUFoo@@" 16)]
      = ([("Foo", CatEntry.full 4128 4096 5 ".?AUFoo@@" 16)], [], []) := by
  exact ⟨by decide, by decide, by decide⟩

/-! ## Claim C9 -/

/-- C9: the partitioner splits the final catalog into exactly the 5-field
entries with rva > 0 (virtual), the 5-field entries with rva = 0
(non-virtual/other) and the 1-field entries (orphaned/unexpanded) — the
partition is the triple of filters, and the three membership predicates are
mutually exclusive and exhaustive, so no entry lands in more than one group;
in particular a vftable-only entry that never merged with a class/struct
record appears only in the orphaned group, carrying just its rva. -/
theorem c9_partition_disjoint :
    (∀ ts : List (String × CatEntry),
      partitionCatalog ts
        = (ts.filter isVirtualEntry, ts.filter isDetailedEntry,
           ts.filter isUnexpandedEntry)) ∧
    ∀ p : String × CatEntry,
      (isVirtualEntry p).toNat + (isDetailedEntry p).toNat
        + (isUnexpandedEntry p).toNat = 1 := by
  constructor
  · intro ts
    rw [partitionCatalog, foldl_partitionStep]
    simp
  · intro p
    rcases p with ⟨nm, e⟩
    cases e with
    | vft r => simp [isVirtualEntry, isDetailedEntry, isUnexpandedEntry]
    | full r a b c d =>
      by_cases hr : r > 0 <;>
        simp [isVirtualEntry, isDetailedEntry, isUnexpandedEntry, hr]

/-! ## Lemmas on the stream reader (claim C2) -/

/-- The full line list of a record given as header line plus body lines. -/
def recLines (r : TLine × List TLine) : List TLine := r.1 :: r.2

/-- Concatenate a list of records into a line stream. -/
def concatLines : List (TLine × List TLine) → List TLine
  | [] => []
  | r :: rs => recLines r ++ concatLines rs

/-- The contents the reader delivers while consuming the given records with
buffer `buf`: `buf` goes out at the first record's header, each record at the
following record's header, and the last record stays in the buffer. -/
def traceOf (buf : List TLine) : List (TLine × List TLine) → List (List TLine)
  | [] => []
  | r :: rs => buf :: traceOf (recLines r) rs

theorem fillAux_append (xs ys : List TLine) :
    ∀ (pos : Int) (s : FillSt),
    fillAux (xs ++ ys) pos s = fillAux ys (pos + xs.length) (fillAux xs pos s) := by
  induction xs with
  | nil => intro pos s; simp [fillAux]
  | cons x xs ih =>
    intro pos s
    have h1 : fillAux ((x :: xs) ++ ys) pos s
        = fillAux (xs ++ ys) (pos + 1) (fillStep s x pos) := rfl
    have h2 : fillAux (x :: xs) pos s = fillAux xs (pos + 1) (fillStep s x pos) := rfl
    rw [h1, h2, ih]
    congr 1
    simp [List.length_cons]
    omega

theorem fillAux_nonheaders (body : List TLine) :
    ∀ (pos : Int) (s : FillSt), (∀ l ∈ body, l.header = none) →
    fillAux body pos s = { s with content := s.content ++ body } := by
  induction body with
  | nil => intro pos s _; simp [fillAux]
  | cons l rest ih =>
    intro pos s hb
    have hl : l.header = none := hb l (by simp)
    have h1 : fillAux (l :: rest) pos s = fillAux rest (pos + 1) (fillStep s l pos) := rfl
    have h2 : fillStep s l pos = { s with content := s.content ++ [l] } := by
      simp [fillStep, hl]
    rw [h1, h2, ih (pos + 1) _ (fun m hm => hb m (by simp [hm]))]
    simp

theorem fillStep_errs (s : FillSt) (l : TLine) (pos : Int) :
    ∃ u, (fillStep s l pos).errs = s.errs ++ u := by
  unfold fillStep
  repeat' split
  all_goals first
    | exact ⟨[], (List.append_nil _).symm⟩
    | exact ⟨_, rfl⟩

theorem fillAux_errs_mono (ls : List TLine) :
    ∀ (pos : Int) (s : FillSt), ∃ u, (fillAux ls pos s).errs = s.errs ++ u := by
  induction ls with
  | nil => intro pos s; exact ⟨[], (List.append_nil _).symm⟩
  | cons l rest ih =>
    intro pos s
    obtain ⟨u1, hu1⟩ := fillStep_errs s l pos
    obtain ⟨u2, hu2⟩ := ih (pos + 1) (fillStep s l pos)
    refine ⟨u1 ++ u2, ?_⟩
    have h1 : fillAux (l :: rest) pos s = fillAux rest (pos + 1) (fillStep s l pos) := rfl
    rw [h1, hu2, hu1, List.append_assoc]

theorem fillAux_records (recs : List (TLine × List TLine)) :
    ∀ (pos : Int) (s : FillSt), s.content ≠ [] →
    (∀ r ∈ recs, (r.1.header).isSome = true ∧ ∀ l ∈ r.2, l.header = none) →
    (fillAux (concatLines recs) pos s).errs = s.errs →
    (fillAux (concatLines recs) pos s).trace = s.trace ++ traceOf s.content recs := by
  induction recs with
  | nil => intro pos s _ _ _; simp [concatLines, fillAux, traceOf]
  | cons r rs ih =>
    intro pos s hc hr herr
    obtain ⟨hh, hbody⟩ := hr r (by simp)
    obtain ⟨hv, hhv⟩ := Option.isSome_iff_exists.mp hh
    have hshape : concatLines (r :: rs) = r.1 :: (r.2 ++ concatLines rs) := by
      simp [concatLines, recLines]
    have h1 : fillAux (r.1 :: (r.2 ++ concatLines rs)) pos s
        = fillAux (r.2 ++ concatLines rs) (pos + 1) (fillStep s r.1 pos) := rfl
    cases hproc : process_current_type s.content ⟨s.fwd, s.typePositions, s.types⟩ s.contentPos with
    | ok p =>
      have hstep : fillStep s r.1 pos
          = { fwd := p.fwd, typePositions := p.typePositions, types := p.types,
              trace := s.trace ++ [s.content], errs := s.errs,
              content := [r.1], contentPos := pos } := by
        simp [fillStep, hhv, hc, hproc]
      have hbd := fillAux_nonheaders r.2 (pos + 1)
        { fwd := p.fwd, typePositions := p.typePositions, types := p.types,
          trace := s.trace ++ [s.content], errs := s.errs,
          content := [r.1], contentPos := pos } hbody
      rw [hshape, h1, hstep, fillAux_append, hbd] at herr ⊢
      have hih := ih (pos + 1 + r.2.length)
        { fwd := p.fwd, typePositions := p.typePositions, types := p.types,
          trace := s.trace ++ [s.content], errs := s.errs,
          content := [r.1] ++ r.2, contentPos := pos }
        (by simp) (fun q hq => hr q (by simp [hq])) herr
      rw [hih]
      simp [traceOf, recLines]
    | error e =>
      exfalso
      have hstep : fillStep s r.1 pos
          = { s with trace := s.trace ++ [s.content], errs := s.errs ++ [e] } := by
        simp [fillStep, hhv, hc, hproc]
      rw [hshape, h1, hstep] at herr
      obtain ⟨u, hu⟩ := fillAux_errs_mono (r.2 ++ concatLines rs) (pos + 1)
        { s with trace := s.trace ++ [s.content], errs := s.errs ++ [e] }
      rw [hu] at herr
      have := congrArg List.length herr
      simp [List.length_append] at this

theorem traceOf_eq_dropLast (buf : List TLine) (recs : List (TLine × List TLine))
    (h : recs ≠ []) :
    traceOf buf recs = buf :: (recs.dropLast.map recLines) := by
  induction recs generalizing buf with
  | nil => exact absurd rfl h
  | cons r rs ih =>
    cases rs with
    | nil => simp [traceOf]
    | cons r2 rs2 =>
      have h2 := ih (recLines r) (by simp)
      have h3 : traceOf buf (r :: r2 :: rs2) = buf :: traceOf (recLines r) (r2 :: rs2) := rfl
      rw [h3, h2]
      simp [List.dropLast]

/-! ## Claim C2 -/

/-- C2, counterexample.  A stream that starts directly with a header line:
`[hdrClassFoo, bodyLineFoo1, hdrClassFoo2]`.  The first record
(`hdrClassFoo` plus its body line) *is* followed by another header line, yet
it is never delivered to the classifier: because the buffer is empty when
the first header arrives, the `content = line` assignment is skipped and the
header is dropped, so the only delivery is the headerless `[bodyLineFoo1]` —
refuting the claimed "if and only if". -/
theorem c2_first_record_lost :
    (fill_types_info [hdrClassFoo, bodyLineFoo1, hdrClassFoo2] []).trace
      = [[bodyLineFoo1]] ∧
    [hdrClassFoo, bodyLineFoo1]
      ∉ (fill_types_info [hdrClassFoo, bodyLineFoo1, hdrClassFoo2] []).trace := by
  exact ⟨by decide, by decide⟩

/-- C2, amended: the reader buffers the previous record and flushes it to
the classifier exactly when the next header line is seen, **provided** the
record's own header arrived while the buffer was nonempty.  The buffer
starts empty, so every header line seen before the first non-header line is
dropped (its record is never delivered in full), and the final record of the
stream is never delivered; moreover, if a delivery raises, the buffer is not
reset and the following header is lost.  Concretely: for a stream made of a
nonempty non-header preamble followed by well-formed records (header line
plus non-header body lines) whose deliveries raise no exception, the
deliveries are exactly the preamble followed by every record except the
last. -/
theorem c2_reader_one_ahead (pre : List TLine) (recs : List (TLine × List TLine))
    (types0 : List (String × CatEntry))
    (hpre0 : pre ≠ []) (hpre : ∀ l ∈ pre, l.header = none)
    (hrecs : ∀ r ∈ recs, (r.1.header).isSome = true ∧ ∀ l ∈ r.2, l.header = none)
    (hne : recs ≠ [])
    (herr : (fill_types_info (pre ++ concatLines recs) types0).errs = []) :
    (fill_types_info (pre ++ concatLines recs) types0).trace
      = pre :: (recs.dropLast.map recLines) := by
  unfold fill_types_info at herr ⊢
  rw [fillAux_append,
    fillAux_nonheaders pre 0
      { fwd := [], typePositions := [], types := types0, trace := [], errs := [],
        content := [], contentPos := -1 } hpre] at herr ⊢
  have hrec := fillAux_records recs (0 + pre.length)
    { fwd := [], typePositions := [], types := types0, trace := [], errs := [],
      content := [] ++ pre, contentPos := -1 }
    (by simp [hpre0]) hrecs herr
  rw [hrec]
  simp [traceOf_eq_dropLast pre recs hne]

/-- C2, witness: preamble `[plainTLine]` and two records (the `Foo` class
record and a trailing record of an unwanted kind).  The deliveries are the
preamble and the first record only. -/
theorem c2_reader_one_ahead_witness :
    (fill_types_info
        ([plainTLine] ++ concatLines
          [(hdrClassFoo, [uniqLineFoo, bodyLineFoo]), (trailHdr, [])]) []).trace
      = [plainTLine]
        :: ([(hdrClassFoo, [uniqLineFoo, bodyLineFoo]), (trailHdr, [])].dropLast.map recLines) :=
  c2_reader_one_ahead [plainTLine]
    [(hdrClassFoo, [uniqLineFoo, bodyLineFoo]), (trailHdr, [])] []
    (by decide) (by decide) (by decide) (by decide) (by decide)

end Symsift
